import Mathlib

/-!
Verification of the log-record parser and streaming statistics engine of
`logs_classes/hw4.py`.

The Python source is shallowly embedded:
* Python `dict`s are insertion-ordered association lists (`List (key × value)`),
  which is faithful to CPython's insertion-ordered dictionaries;
* machine integers are `Nat` (all integers in the program are non-negative:
  they come from `\d+` captures or counters);
* Python floats produced by `total_time / count` are modelled as exact
  rationals `ℚ`;
* the compiled regular expression `Parser.PATTERN` is embedded as a
  backtracking matcher in continuation-passing style, one combinator per
  regex construct, applied in prefix-match (`re.match`) discipline;
* `datetime.strptime(-, "%d/%b/%Y:%H:%M:%S %z")` from the standard library is
  modelled after CPython's `_strptime` (see `strptime_date`);
* a raised `ValueError` is an `Except.error` / an error component in the
  result of `Statistics.add_line`.
-/

/-! ## Character classes of the pattern

Python `re` classes, restricted to the ASCII characters that occur in
log lines (`\d` and `\s` additionally match some non-ASCII characters in
Python; no claim depends on those). -/

/-- Python regex `\s` (ASCII part): space, tab, newline, carriage return,
vertical tab, form feed. -/
def pyIsSpace (c : Char) : Bool :=
  c = ' ' || c = '\t' || c = '\n' || c = '\r' || c = '\x0b' || c = '\x0c'

/-- Python regex `\S`. -/
def pyIsNotSpace (c : Char) : Bool := !pyIsSpace c

/-- Python regex `\d` (ASCII part): the decimal digits. -/
def pyIsDigit (c : Char) : Bool := c.isDigit

/-- Python regex `.` without `re.DOTALL`: any character except newline. -/
def pyIsDot (c : Char) : Bool := c ≠ '\n'

/-- `int(s)` on a string of decimal digits. -/
def digitsToNat (cs : List Char) : Nat :=
  cs.foldl (fun n c => n * 10 + (c.toNat - 48)) 0

/-! ## Dates and the strptime model -/

/-- The value of `datetime.date`: a calendar date. -/
structure PyDate where
  year : Nat
  month : Nat
  day : Nat
deriving DecidableEq, Repr

/-- Gregorian leap year, as in `calendar.isleap` / `datetime`. -/
def isLeap (y : Nat) : Bool := y % 4 = 0 && (y % 100 ≠ 0 || y % 400 = 0)

/-- Number of days of month `m` of year `y`, as in `datetime`. -/
def daysInMonth (y m : Nat) : Nat :=
  if m = 2 then (if isLeap y then 29 else 28)
  else if m = 4 || m = 6 || m = 9 || m = 11 then 30
  else 31

/-- `%d` of CPython `_strptime`: `3[01]|[12]\d|0[1-9]|[1-9]| [1-9]`.
The two-digit alternatives are exactly the two-digit numbers 01..31; a
one-digit day is 1..9, optionally space-padded.  (When the first two
characters are both digits, the one-digit alternative cannot rescue a failed
match, because the following character would have to be the literal `/` of
the format and is a digit instead; so the greedy choice below is faithful.) -/
def parseDay : List Char → Option (Nat × List Char)
  | c1 :: c2 :: rest =>
    if pyIsDigit c1 && pyIsDigit c2 then
      let d := (c1.toNat - 48) * 10 + (c2.toNat - 48)
      if 1 ≤ d && d ≤ 31 then some (d, rest) else none
    else if pyIsDigit c1 && c1 ≠ '0' then some (c1.toNat - 48, c2 :: rest)
    else if c1 = ' ' && pyIsDigit c2 && c2 ≠ '0' then some (c2.toNat - 48, rest)
    else none
  | [c1] => if pyIsDigit c1 && c1 ≠ '0' then some (c1.toNat - 48, []) else none
  | [] => none

/-- A two-digit-or-one-digit numeric field of `_strptime` whose two-digit
alternatives are exactly `00..limit` (`%H`: limit 23, `%M`: limit 59,
`%S`: limit 61) and whose one-digit alternative is `\d`. -/
def parseTwoOr1 (limit : Nat) : List Char → Option (Nat × List Char)
  | c1 :: c2 :: rest =>
    if pyIsDigit c1 && pyIsDigit c2 then
      let v := (c1.toNat - 48) * 10 + (c2.toNat - 48)
      if v ≤ limit then some (v, rest) else none
    else if pyIsDigit c1 then some (c1.toNat - 48, c2 :: rest)
    else none
  | [c1] => if pyIsDigit c1 then some (c1.toNat - 48, []) else none
  | [] => none

/-- The English abbreviated month names used by `%b` in the C locale. -/
def monthAbbrevs : List (String × Nat) :=
  [("jan", 1), ("feb", 2), ("mar", 3), ("apr", 4), ("may", 5), ("jun", 6),
   ("jul", 7), ("aug", 8), ("sep", 9), ("oct", 10), ("nov", 11), ("dec", 12)]

/-- `%b`: a case-insensitive abbreviated month name (three characters). -/
def parseMonth : List Char → Option (Nat × List Char)
  | c1 :: c2 :: c3 :: rest =>
    match monthAbbrevs.lookup (String.mk [c1.toLower, c2.toLower, c3.toLower]) with
    | some m => some (m, rest)
    | none => none
  | _ => none

/-- `%Y`: exactly four digits (`\d\d\d\d`). -/
def parseYear4 : List Char → Option (Nat × List Char)
  | c1 :: c2 :: c3 :: c4 :: rest =>
    if pyIsDigit c1 && pyIsDigit c2 && pyIsDigit c3 && pyIsDigit c4 then
      some (digitsToNat [c1, c2, c3, c4], rest)
    else none
  | _ => none

/-- A literal character of the format string. -/
def expectChar (c : Char) : List Char → Option (List Char)
  | x :: t => if x = c then some t else none
  | [] => none

/-- A literal whitespace in a `strptime` format matches `\s+`. -/
def skipWs1 : List Char → Option (List Char)
  | x :: t => if pyIsSpace x then some (t.dropWhile pyIsSpace) else none
  | [] => none

/-- `[0-5]\d`: exactly two digits, value 00..59. -/
def parseSixty : List Char → Option (Nat × List Char)
  | c1 :: c2 :: rest =>
    if pyIsDigit c1 && c1.toNat ≤ 53 && pyIsDigit c2 then
      some ((c1.toNat - 48) * 10 + (c2.toNat - 48), rest)
    else none
  | _ => none

/-- The optional fractional part `(\.\d{1,6})?` of `%z` seconds. -/
def dropFrac (cs : List Char) : List Char :=
  match cs with
  | '.' :: rest =>
    let digs := rest.takeWhile pyIsDigit
    if digs.length = 0 then cs else rest.drop (min digs.length 6)
  | _ => cs

/-- The optional seconds `(:?[0-5]\d(\.\d{1,6})?)?` of `%z`. -/
def parseTzSeconds (cs : List Char) : List Char :=
  match cs with
  | ':' :: rest =>
    match parseSixty rest with
    | some (_, r) => dropFrac r
    | none => cs
  | _ =>
    match parseSixty cs with
    | some (_, r) => dropFrac r
    | none => cs

/-- `%z`: `[+-]\d\d:?[0-5]\d(:?[0-5]\d(\.\d{1,6})?)?|(?-i:Z)`, followed by the
requirement of `datetime.timezone` that the offset be strictly smaller than
24 hours in magnitude (hence hours at most 23).  The parsed offset is
discarded, as `.date()` drops the time zone. -/
def parseTz : List Char → Option (List Char)
  | [] => none
  | c :: rest =>
    if c = 'Z' then some rest
    else if c = '+' || c = '-' then
      match rest with
      | c1 :: c2 :: r1 =>
        if pyIsDigit c1 && pyIsDigit c2 then
          let hh := (c1.toNat - 48) * 10 + (c2.toNat - 48)
          let r2 := match r1 with
            | ':' :: t =>
              match parseSixty t with
              | some (_, r) => some (parseTzSeconds r)
              | none => none
            | _ =>
              match parseSixty r1 with
              | some (_, r) => some (parseTzSeconds r)
              | none => none
          match r2 with
          | some r => if hh ≤ 23 then some r else none
          | none => none
        else none
      | _ => none
    else none

/-- Models CPython `datetime.strptime(s, "%d/%b/%Y:%H:%M:%S %z").date()`
from the standard library: the format is compiled to an anchored,
case-insensitive regular expression, the whole string must be consumed
("unconverted data remains" otherwise), and the resulting fields must form a
valid `datetime` (year at least 1, day within the month, seconds at most 59
even though the `%S` pattern admits 60 and 61).  Returns `none` where CPython
raises `ValueError`. -/
def strptime_date (s : String) : Option PyDate :=
  match parseDay s.data with
  | none => none
  | some (d, r1) =>
  match expectChar '/' r1 with
  | none => none
  | some r2 =>
  match parseMonth r2 with
  | none => none
  | some (m, r3) =>
  match expectChar '/' r3 with
  | none => none
  | some r4 =>
  match parseYear4 r4 with
  | none => none
  | some (y, r5) =>
  match expectChar ':' r5 with
  | none => none
  | some r6 =>
  match parseTwoOr1 23 r6 with
  | none => none
  | some (_, r7) =>
  match expectChar ':' r7 with
  | none => none
  | some r8 =>
  match parseTwoOr1 59 r8 with
  | none => none
  | some (_, r9) =>
  match expectChar ':' r9 with
  | none => none
  | some r10 =>
  match parseTwoOr1 61 r10 with
  | none => none
  | some (sec, r11) =>
  match skipWs1 r11 with
  | none => none
  | some r12 =>
  match parseTz r12 with
  | none => none
  | some r13 =>
  if r13 = [] && 1 ≤ y && sec ≤ 59 && 1 ≤ d && d ≤ daysInMonth y m then
    some ⟨y, m, d⟩
  else none

/-! ## The regular expression `Parser.PATTERN`

The compiled pattern

  `(?P<IP>(\d{1,3}\.){3}\d{1,3})\s-\s-\s`
  `\[(?P<date>.+)\]\s"(GET|PUT|POST|HEAD|OPTIONS|DELETE)\s`
  `(?P<page>(\S+)).\S+" \d+ \d+ "\S+\s"`
  `(?P<User_Agent>(.+))"(\s(?P<time>(\d+)))?`

is embedded as a backtracking matcher in continuation-passing style.
A continuation of type `K` receives the remaining input and the named
captures made so far; greedy constructs try the longest extension first
and fall back one character at a time, exactly as Python's backtracking
engine does.  `re.match` is a prefix match, so the top-level continuation
accepts any remaining input. -/

/-- `re.groupdict()` restricted to the named groups of `Parser.PATTERN`;
an unmatched optional group is `none` (Python `None`). -/
structure PyGroups where
  IP : Option String := none
  date : Option String := none
  page : Option String := none
  User_Agent : Option String := none
  time : Option String := none
deriving DecidableEq, Repr

/-- Matching continuations: remaining input and captures so far. -/
abbrev K := List Char → PyGroups → Option PyGroups

/-- A literal character of the pattern. -/
def clit (c : Char) (k : K) : K := fun s g =>
  match s with
  | [] => none
  | x :: t => if x = c then k t g else none

/-- A single character of a class (`\s`, `\d`, `.`). -/
def cone (p : Char → Bool) (k : K) : K := fun s g =>
  match s with
  | [] => none
  | x :: t => if p x then k t g else none

/-- A literal word of the pattern (e.g. one method alternative). -/
def clits (w : String) (k : K) : K := w.data.foldr clit k

/-- Greedy Kleene-plus of a character class, after its first character has
been consumed: try to extend the match first, then give the character back. -/
def cplusAux (p : Char → Bool) (k : K) : K := fun s g =>
  match s with
  | [] => k [] g
  | c :: t =>
    if p c then
      match cplusAux p k t g with
      | some r => some r
      | none => k (c :: t) g
    else k (c :: t) g

/-- `p+` for a character class `p`, greedy. -/
def cplus (p : Char → Bool) (k : K) : K := fun s g =>
  match s with
  | [] => none
  | c :: t => if p c then cplusAux p k t g else none

/-- Greedy plus of a character class under a named capture group: as
`cplus`, additionally accumulating the consumed characters (in reverse) and
recording them through `set` whenever the continuation is tried. -/
def cplusGrpAux (p : Char → Bool) (set : String → PyGroups → PyGroups) (k : K)
    (acc : List Char) : K := fun s g =>
  match s with
  | [] => k [] (set (String.mk acc.reverse) g)
  | c :: t =>
    if p c then
      match cplusGrpAux p set k (c :: acc) t g with
      | some r => some r
      | none => k (c :: t) (set (String.mk acc.reverse) g)
    else k (c :: t) (set (String.mk acc.reverse) g)

/-- `(?P<name>p+)` for a character class `p`, greedy. -/
def cplusGrp (p : Char → Bool) (set : String → PyGroups → PyGroups) (k : K) : K :=
  fun s g =>
    match s with
    | [] => none
    | c :: t => if p c then cplusGrpAux p set k [c] t g else none

/-- `p{1,3}` for a character class `p`, greedy: three characters if possible,
backing off to two and then one.  The continuation receives the characters
consumed so far (in reverse), used for the capture of the enclosing `IP`
group. -/
def crep13 (p : Char → Bool) (k : List Char → K) (acc : List Char) : K := fun s g =>
  match s with
  | [] => none
  | a :: t =>
    if p a then
      match t with
      | b :: c :: t3 =>
        if p b then
          if p c then
            match k (c :: b :: a :: acc) t3 g with
            | some r => some r
            | none =>
              match k (b :: a :: acc) (c :: t3) g with
              | some r => some r
              | none => k (a :: acc) (b :: c :: t3) g
          else
            match k (b :: a :: acc) (c :: t3) g with
            | some r => some r
            | none => k (a :: acc) (b :: c :: t3) g
        else k (a :: acc) (b :: c :: t3) g
      | [b] =>
        if p b then
          match k (b :: a :: acc) [] g with
          | some r => some r
          | none => k (a :: acc) [b] g
        else k (a :: acc) [b] g
      | [] => k (a :: acc) [] g
    else none

/-- A literal character inside the `IP` group, accumulating the consumed
characters like `crep13`. -/
def clitA (c : Char) (k : List Char → K) (acc : List Char) : K := fun s g =>
  match s with
  | [] => none
  | x :: t => if x = c then k (c :: acc) t g else none

/-- A greedy optional group `(...)?`: try the group, then skip it. -/
def copt (m : K → K) (k : K) : K := fun s g =>
  match m k s g with
  | some r => some r
  | none => k s g

/-- `re.match`: accept with whatever input remains (prefix match). -/
def acceptK : K := fun _ g => some g

namespace Parser

/-- `(\s(?P<time>(\d+)))?` and the end of the pattern. -/
def patTime : K :=
  copt (fun k => cone pyIsSpace (cplusGrp pyIsDigit (fun v g => { g with time := some v }) k))
    acceptK

/-- `(?P<User_Agent>(.+))"` and the rest. -/
def patUA : K :=
  cplusGrp pyIsDot (fun v g => { g with User_Agent := some v }) (clit '"' patTime)

/-- `"\S+\s"` (the referrer field) and the rest. -/
def patRef : K := clit '"' (cplus pyIsNotSpace (cone pyIsSpace (clit '"' patUA)))

/-- `" \d+ \d+ ` (closing quote of the request, status code, size) and the rest. -/
def patNums : K :=
  clit '"' (clit ' ' (cplus pyIsDigit (clit ' ' (cplus pyIsDigit (clit ' ' patRef)))))

/-- `.\S+` after the page group, then the rest. -/
def patAfterPage : K := cone pyIsDot (cplus pyIsNotSpace patNums)

/-- `(?P<page>(\S+))` and the rest. -/
def patPage : K :=
  cplusGrp pyIsNotSpace (fun v g => { g with page := some v }) patAfterPage

/-- `(GET|PUT|POST|HEAD|OPTIONS|DELETE)\s` and the rest; the alternatives are
tried left to right. -/
def patMethod : K := fun s g =>
  match clits "GET" (cone pyIsSpace patPage) s g with
  | some r => some r
  | none =>
  match clits "PUT" (cone pyIsSpace patPage) s g with
  | some r => some r
  | none =>
  match clits "POST" (cone pyIsSpace patPage) s g with
  | some r => some r
  | none =>
  match clits "HEAD" (cone pyIsSpace patPage) s g with
  | some r => some r
  | none =>
  match clits "OPTIONS" (cone pyIsSpace patPage) s g with
  | some r => some r
  | none => clits "DELETE" (cone pyIsSpace patPage) s g

/-- `\]\s"` after the date group, then the rest. -/
def patAfterDate : K := clit ']' (cone pyIsSpace (clit '"' patMethod))

/-- `\[(?P<date>.+)` and the rest. -/
def patDate : K :=
  clit '[' (cplusGrp pyIsDot (fun v g => { g with date := some v }) patAfterDate)

/-- `(?P<IP>(\d{1,3}\.){3}\d{1,3})\s-\s-\s` and the rest.  The capture is the
input consumed by the group, accumulated in reverse along the match. -/
def patIP : K :=
  crep13 pyIsDigit (clitA '.' (crep13 pyIsDigit (clitA '.'
    (crep13 pyIsDigit (clitA '.' (crep13 pyIsDigit (fun acc s2 g2 =>
      (cone pyIsSpace (clit '-' (cone pyIsSpace (clit '-' (cone pyIsSpace patDate)))))
        s2 { g2 with IP := some (String.mk acc.reverse) }))))))) []

/-- The whole `Parser.PATTERN` as a matcher on a line, in `re.match`
(anchored prefix) discipline; returns `groupdict()` on success. -/
def PATTERN (line : String) : Option PyGroups := patIP line.data {}

end Parser

/-! ## Parsed records and `Parser.parse` / `Parser.type_conversion` -/

/-- A parsed log record after `type_conversion`: the named captures with
`date` parsed to a calendar date and `time` to an integer when present. -/
structure LogRecord where
  IP : String
  date : PyDate
  page : String
  User_Agent : String
  time : Option Nat
deriving DecidableEq, Repr

namespace Parser

/-- `Parser.type_conversion`: parse the `date` capture with `strptime`
(raising `ValueError` on failure, modelled as `Except.error`), and convert a
present `time` capture with `int` (a captured `time` is a non-empty digit
string, hence truthy, so `if group['time']` converts it whenever present). -/
def type_conversion (g : PyGroups) : Except String LogRecord :=
  match strptime_date (g.date.getD "") with
  | none => Except.error "ValueError"
  | some d =>
    Except.ok
      { IP := g.IP.getD "", date := d, page := g.page.getD "",
        User_Agent := g.User_Agent.getD "",
        time := g.time.map (fun t => digitsToNat t.data) }

/-- `Parser.parse`: `re.match` against `PATTERN`; `None` (here `ok none`)
when the pattern does not match, otherwise `type_conversion` of the group
dictionary (which may raise). -/
def parse (line : String) : Except String (Option LogRecord) :=
  match PATTERN line with
  | none => Except.ok none
  | some g => (type_conversion g).map some

end Parser

/-! ## The accumulators -/

/-- Python truthiness of the converted `time` field: `None` and `0` are
falsy, any other integer is truthy. -/
def pyTruthyTime : Option Nat → Bool
  | none => false
  | some t => t != 0

/-- `SlowestPageStat`: `_max_time = 0`, `_value = ""`. -/
structure SlowestPageStat where
  max_time : Nat := 0
  value : String := ""
deriving DecidableEq, Repr

/-- `SlowestPageStat.update`: replace when `time >= self._max_time`. -/
def SlowestPageStat.update (s : SlowestPageStat) (time : Nat) (page : String) :
    SlowestPageStat :=
  if time ≥ s.max_time then { value := page, max_time := time } else s

/-- `FastestPageStat`: `_min_time = 10**10`, `_value = ""`. -/
structure FastestPageStat where
  min_time : Nat := 10 ^ 10
  value : String := ""
deriving DecidableEq, Repr

/-- `FastestPageStat.update`: replace when `time <= self._min_time`. -/
def FastestPageStat.update (s : FastestPageStat) (time : Nat) (page : String) :
    FastestPageStat :=
  if time ≤ s.min_time then { value := page, min_time := time } else s

/-- `Page`: running total, count and average response time of one page.
The Python float average is modelled as an exact rational. -/
structure Page where
  total_time : Nat := 0
  count : Nat := 0
  avg_time : ℚ := 0
deriving DecidableEq, Repr

/-- `Page.add_time` followed by `calculate_avg_time`. -/
def Page.add_time (pg : Page) (time : Nat) : Page :=
  { total_time := pg.total_time + time, count := pg.count + 1,
    avg_time := ((pg.total_time + time : Nat) : ℚ) / ((pg.count + 1 : Nat) : ℚ) }

/-- Python `max(pages.values(), key=lambda x: x.avg_time())`: the first
element of the iteration attaining the maximal average (a later element
replaces the current best only when strictly greater). -/
def maxByAvg : List Page → Option Page
  | [] => none
  | x :: t => some (t.foldl (fun best y => if best.avg_time < y.avg_time then y else best) x)

/-- The tie tolerance `0.1**10` of `Page.max`, as an exact rational. -/
def avgTol : ℚ := (1 / 10) ^ 10

/-- `Page.max`: the maximal average over the values, then the first key in
the dictionary's (insertion) iteration order whose average is within
`0.1**10` of that maximum.  The Python loop falls off the end (returning
`None`) only if no key qualifies, which cannot happen since the maximal
entry qualifies. -/
def Page.max (pages : List (String × Page)) : Option String :=
  match maxByAvg (pages.map Prod.snd) with
  | none => none
  | some mx =>
    (pages.map Prod.fst).find? (fun name =>
      decide (|((pages.lookup name).getD {}).avg_time - mx.avg_time| < avgTol))

/-- `defaultdict(Page)` update `self._pages[page].add_time(time)`:
get-or-insert a default `Page` at the key (insertion order preserved),
then `add_time`. -/
def addTimeAt : List (String × Page) → String → Nat → List (String × Page)
  | [], k, t => [(k, Page.add_time {} t)]
  | (k', v) :: rest, k, t =>
    if k' = k then (k', v.add_time t) :: rest else (k', v) :: addTimeAt rest k t

/-- `SlowestAveragePageStat`: a `defaultdict(Page)`. -/
structure SlowestAveragePageStat where
  pages : List (String × Page) := []
deriving DecidableEq, Repr

def SlowestAveragePageStat.update (s : SlowestAveragePageStat) (time : Nat)
    (page : String) : SlowestAveragePageStat :=
  { pages := addTimeAt s.pages page time }

/-- `Page.max(self._pages) if self._pages else ""`. -/
def SlowestAveragePageStat.value (s : SlowestAveragePageStat) : String :=
  match s.pages with
  | [] => ""
  | _ :: _ => (Page.max s.pages).getD ""

/-! ## The lexicographic tie-break -/

/-- Python string comparison: lexicographic on code points. -/
def listLexLe : List Char → List Char → Bool
  | [], _ => true
  | _ :: _, [] => false
  | a :: as, b :: bs =>
    if a.toNat < b.toNat then true
    else if b.toNat < a.toNat then false
    else listLexLe as bs

/-- Python `<=` on strings. -/
def pyLe (a b : String) : Prop := listLexLe a.data b.data = true

instance : DecidableRel pyLe := fun a b => by unfold pyLe; infer_instance

/-- Python `sorted` on a list of distinct strings: the ascending reordering. -/
def sortKeys (l : List String) : List String := List.insertionSort pyLe l

/-- `defaultdict(int)` update `m[k] += 1`: increment in place (insertion
order preserved), inserting the key with the implicit zero default first. -/
def incr (m : List (String × Nat)) (k : String) : List (String × Nat) :=
  match m with
  | [] => [(k, 1)]
  | (k', v) :: t => if k' = k then (k', v + 1) :: t else (k', v) :: incr t k

/-- `lexicographic_min`: `""` for an empty mapping; otherwise the first key
in sorted order whose count equals `max(data.values())`.  (On `Nat`,
`max(values)` of a non-empty list equals the fold of `Nat.max` from `0`.
The Python loop cannot fall off the end, since the key holding the maximum
qualifies; the final `""` is that dead branch.) -/
def lexicographic_min (data : List (String × Nat)) : String :=
  match data with
  | [] => ""
  | _ :: _ =>
    let max_value := (data.map Prod.snd).foldl Nat.max 0
    match (sortKeys (data.map Prod.fst)).find? (fun k => (data.lookup k).getD 0 == max_value) with
    | some k => k
    | none => ""

/-! ## The popularity accumulators -/

/-- `MostPopularPageStat`: counts per page. -/
structure MostPopularPageStat where
  pages : List (String × Nat) := []
deriving DecidableEq, Repr

def MostPopularPageStat.update (s : MostPopularPageStat) (page : String) :
    MostPopularPageStat := { pages := incr s.pages page }

def MostPopularPageStat.value (s : MostPopularPageStat) : String :=
  lexicographic_min s.pages

/-- `MostActiveСlientStat` of the source (the source class name contains a
Cyrillic letter; spelled ASCII here): counts per client IP. -/
structure MostActiveClientStat where
  clients : List (String × Nat) := []
deriving DecidableEq, Repr

def MostActiveClientStat.update (s : MostActiveClientStat) (client : String) :
    MostActiveClientStat := { clients := incr s.clients client }

def MostActiveClientStat.value (s : MostActiveClientStat) : String :=
  lexicographic_min s.clients

/-- `MostPopularBrowserStat`: counts per user agent. -/
structure MostPopularBrowserStat where
  browsers : List (String × Nat) := []
deriving DecidableEq, Repr

def MostPopularBrowserStat.update (s : MostPopularBrowserStat) (browser : String) :
    MostPopularBrowserStat := { browsers := incr s.browsers browser }

def MostPopularBrowserStat.value (s : MostPopularBrowserStat) : String :=
  lexicographic_min s.browsers

/-- `MostActiveСlientByDayStat` (ASCII spelling): a target date and counts
per client for that date. -/
structure MostActiveClientByDayStat where
  date : PyDate
  clients : List (String × Nat) := []
deriving DecidableEq, Repr

/-- `update(date, client)`: a no-op unless the record's date equals the
target date. -/
def MostActiveClientByDayStat.update (s : MostActiveClientByDayStat)
    (date : PyDate) (client : String) : MostActiveClientByDayStat :=
  if s.date ≠ date then s else { s with clients := incr s.clients client }

/-- `value()`: the one-entry mapping from the target date to the tie-break
of the per-client counts. -/
def MostActiveClientByDayStat.value (s : MostActiveClientByDayStat) :
    List (PyDate × String) :=
  [(s.date, lexicographic_min s.clients)]

/-! ## The engine -/

/-- A value of the report: a string, or the one-entry date-keyed mapping of
`MostActiveClientByDay`. -/
inductive RValue where
  | str (v : String)
  | dmap (v : List (PyDate × String))
deriving DecidableEq, Repr

/-- `Statistics.__init__`: one fresh accumulator of each kind, the by-day
accumulator constructed with `date(2012, 7, 8)`. -/
structure Statistics where
  fastest_page : FastestPageStat := {}
  slowest_page : SlowestPageStat := {}
  slowest_average_page : SlowestAveragePageStat := {}
  most_popular_page : MostPopularPageStat := {}
  most_active_client : MostActiveClientStat := {}
  most_popular_browser : MostPopularBrowserStat := {}
  most_active_client_by_day : MostActiveClientByDayStat := { date := ⟨2012, 7, 8⟩ }
deriving DecidableEq, Repr

/-- `Statistics.update`: feed the three timed accumulators when
`group['time']` is truthy, then always feed the four popularity/activity
accumulators. -/
def Statistics.update (s : Statistics) (g : LogRecord) : Statistics :=
  let s1 :=
    if pyTruthyTime g.time then
      { s with
        fastest_page := s.fastest_page.update (g.time.getD 0) g.page,
        slowest_page := s.slowest_page.update (g.time.getD 0) g.page,
        slowest_average_page := s.slowest_average_page.update (g.time.getD 0) g.page }
    else s
  { s1 with
    most_popular_page := s1.most_popular_page.update g.page,
    most_active_client := s1.most_active_client.update g.IP,
    most_popular_browser := s1.most_popular_browser.update g.User_Agent,
    most_active_client_by_day := s1.most_active_client_by_day.update g.date g.IP }

/-- `Statistics.add_line`: parse, then dispatch if a record was produced.
The first component is the propagated error (`ValueError` from the date
conversion), the second the engine state after the call; an exception
escapes before any accumulator is touched, since all dispatch happens after
a successful parse. -/
def Statistics.add_line (s : Statistics) (line : String) : Option String × Statistics :=
  match Parser.parse line with
  | Except.error e => (some e, s)
  | Except.ok none => (none, s)
  | Except.ok (some g) => (none, s.update g)

/-- `Statistics.results`: the report, an insertion-ordered mapping with the
seven fixed keys. -/
def Statistics.results (s : Statistics) : List (String × RValue) :=
  [("FastestPage", RValue.str s.fastest_page.value),
   ("MostActiveClient", RValue.str s.most_active_client.value),
   ("MostActiveClientByDay", RValue.dmap s.most_active_client_by_day.value),
   ("MostPopularBrowser", RValue.str s.most_popular_browser.value),
   ("MostPopularPage", RValue.str s.most_popular_page.value),
   ("SlowestAveragePage", RValue.str s.slowest_average_page.value),
   ("SlowestPage", RValue.str s.slowest_page.value)]

/-- `make_stat()`. -/
def make_stat : Statistics := {}

/-! ## Concrete lines used in witnesses and counterexamples -/

/-- The part of a request line before the path. -/
def linePre : String := "1.2.3.4 - - [08/Jul/2012:06:31:57 +0600] \"GET "

/-- The part of a request line after the path. -/
def lineSuf : String := " HTTP/1.1\" 304 211 \"http://r\" \"ua1\""

/-- A well-formed log line with the given request path. -/
def mkReqLine (p : String) : String := linePre ++ p ++ lineSuf

/-- A well-formed log line carrying the (present) response time `0`. -/
def c1_line : String :=
  "1.2.3.4 - - [08/Jul/2012:06:31:57 +0600] \"GET /zz HTTP/1.1\" 304 211 \"http://r\" \"ua1\" 0"

/-- The record parsed from `c1_line`. -/
def c1_rec : LogRecord :=
  { IP := "1.2.3.4", date := ⟨2012, 7, 8⟩, page := "/zz", User_Agent := "ua1", time := some 0 }

/-- A small page-statistics mapping: two pages with averages 4 and 9. -/
def c5_pages : List (String × Page) :=
  [("a", Page.add_time {} 4), ("b", Page.add_time {} 9)]

/-- Two timed updates beyond the fastest sentinel `10**10`, tying for the
minimum time of the sequence. -/
def c6_list : List (Nat × String) := [(10 ^ 10 + 1, "a"), (10 ^ 10 + 1, "b")]

/-- A line matching the outer grammar whose bracketed timestamp (day 99) is
not a valid date. -/
def c7_line : String :=
  "1.2.3.4 - - [99/Jul/2012:06:31:57 +0600] \"GET /a HTTP/1.1\" 1 1 \"r\" \"u\""

/-- The group dictionary captured from `c7_line`. -/
def c7_groups : PyGroups :=
  { IP := some "1.2.3.4", date := some "99/Jul/2012:06:31:57 +0600",
    page := some "/a", User_Agent := some "u", time := none }

/-- The malformed line of the repository's own test suite. -/
def c8_bad : String :=
  "192.fdfdfdfdfdfdfdfdf \"fdfledfdfdffdfdfdfdfdf/1.1\" 304 211 \"http://callider/mefdfdfdfdfdfible; MSIE 9.0; Winfdfdfdfdfdf5.0)\""

/-- A well-formed log line. -/
def c10_good : String :=
  "1.2.3.4 - - [08/Jul/2012:06:31:57 +0600] \"GET /ok.html HTTP/1.1\" 200 99 \"http://r\" \"ua1\""

/-- Trailing content beyond the recognized shape. -/
def c10_junk : String := " @@@tail beyond the recognized shape@@@"

/-- The record parsed from `c10_good`, with or without trailing junk. -/
def c10_rec : LogRecord :=
  { IP := "1.2.3.4", date := ⟨2012, 7, 8⟩, page := "/ok.html", User_Agent := "ua1", time := none }

/-! # Theorems -/

set_option maxRecDepth 40000

/-- **C9**: on a freshly constructed engine with no ingest calls, `report()`
returns a mapping with exactly the seven keys `FastestPage`,
`MostActiveClient`, `MostActiveClientByDay`, `MostPopularBrowser`,
`MostPopularPage`, `SlowestAveragePage`, `SlowestPage`, where every
string-valued key holds `""` and `MostActiveClientByDay` holds the one-entry
mapping from 2012-07-08 to `""`. -/
theorem C9_empty_report :
    make_stat.results =
      [("FastestPage", RValue.str ""),
       ("MostActiveClient", RValue.str ""),
       ("MostActiveClientByDay", RValue.dmap [(⟨2012, 7, 8⟩, "")]),
       ("MostPopularBrowser", RValue.str ""),
       ("MostPopularPage", RValue.str ""),
       ("SlowestAveragePage", RValue.str ""),
       ("SlowestPage", RValue.str "")] := rfl

/-- **C10**: the pattern is matched as a prefix of the line (no end-of-line
anchor): a well-formed log line followed by extra trailing characters beyond
the recognized shape still parses to a record (the same record as without
the junk), rather than being silently dropped. -/
theorem C10_prefix_match :
    Parser.parse (c10_good ++ c10_junk) = Except.ok (some c10_rec) ∧
    Parser.parse c10_good = Except.ok (some c10_rec) := ⟨rfl, rfl⟩

/-- **C8**: a line on which the pattern does not match (parse returns
`None`) leaves the engine state unchanged and raises no error. -/
theorem C8_unrecognized_line (line : String) (s : Statistics)
    (h : Parser.PATTERN line = none) :
    s.add_line line = (none, s) := by
  unfold Statistics.add_line Parser.parse
  rw [h]

/-- Witness for C8 on the malformed line of the repository's test suite. -/
theorem C8_unrecognized_line_witness : make_stat.add_line c8_bad = (none, make_stat) :=
  C8_unrecognized_line c8_bad make_stat (by decide)

/-- **C7**: a line matching the outer grammar whose bracketed timestamp is
not a valid date propagates a fatal `ValueError` out of ingest, and the
engine state is returned unchanged: the failure happens inside the parse,
before any dispatch. -/
theorem C7_bad_timestamp (line : String) (s : Statistics) (g : PyGroups)
    (h1 : Parser.PATTERN line = some g)
    (h2 : strptime_date (g.date.getD "") = none) :
    s.add_line line = (some "ValueError", s) := by
  have hp : Parser.parse line = Except.error "ValueError" := by
    unfold Parser.parse
    rw [h1]
    show (Parser.type_conversion g).map some = Except.error "ValueError"
    unfold Parser.type_conversion
    rw [h2]
    rfl
  unfold Statistics.add_line
  rw [hp]

/-- Witness for C7: day 99 is not a valid day of July. -/
theorem C7_bad_timestamp_witness :
    make_stat.add_line c7_line = (some "ValueError", make_stat) :=
  C7_bad_timestamp c7_line make_stat c7_groups (by decide) (by decide)

/-- **C1 (amended)**: the engine's dispatch feeds `FastestPage`,
`SlowestPage` and `SlowestAveragePage` with `(responseTimeMs, page)` exactly
when `responseTimeMs` is present *and non-zero* (the dispatch tests Python
truthiness of the converted field, so a present value `0` is treated like an
absent one); a record without a truthy time leaves the three timed
accumulators unchanged; the four popularity/activity accumulators are always
updated. -/
theorem C1_dispatch (s : Statistics) (g : LogRecord) (t : Nat) :
    (g.time = some t → t ≠ 0 →
      ((s.update g).fastest_page = s.fastest_page.update t g.page ∧
       (s.update g).slowest_page = s.slowest_page.update t g.page ∧
       (s.update g).slowest_average_page = s.slowest_average_page.update t g.page)) ∧
    ((g.time = none ∨ g.time = some 0) →
      ((s.update g).fastest_page = s.fastest_page ∧
       (s.update g).slowest_page = s.slowest_page ∧
       (s.update g).slowest_average_page = s.slowest_average_page)) ∧
    (s.update g).most_popular_page = s.most_popular_page.update g.page ∧
    (s.update g).most_active_client = s.most_active_client.update g.IP ∧
    (s.update g).most_popular_browser = s.most_popular_browser.update g.User_Agent ∧
    (s.update g).most_active_client_by_day = s.most_active_client_by_day.update g.date g.IP := by
  obtain ⟨ip, d, pg, ua, tm⟩ := g
  cases tm with
  | none =>
    refine ⟨fun h => by simp at h, fun _ => ?_, ?_, ?_, ?_, ?_⟩ <;>
      simp [Statistics.update, pyTruthyTime]
  | some t2 =>
    by_cases ht : t2 = 0
    · subst ht
      refine ⟨fun h h0 => absurd (by simpa using h.symm) h0, fun _ => ?_, ?_, ?_, ?_, ?_⟩ <;>
        simp [Statistics.update, pyTruthyTime]
    · have htr : pyTruthyTime (some t2) = true := by simp [pyTruthyTime, ht]
      refine ⟨fun h h0 => ?_, fun h => ?_, ?_, ?_, ?_, ?_⟩
      · obtain rfl : t2 = t := by simpa using h
        refine ⟨?_, ?_, ?_⟩ <;> simp [Statistics.update, htr]
      · rcases h with h | h
        · simp at h
        · exact absurd (by simpa using h) ht
      all_goals simp [Statistics.update, htr]

/-- Witness for C1 with a record carrying a present, non-zero time. -/
theorem C1_dispatch_witness :
    (make_stat.update { IP := "9.9.9.9", date := ⟨2012, 7, 8⟩, page := "/w",
                        User_Agent := "wua", time := some 5 }).fastest_page =
      make_stat.fastest_page.update 5 "/w" ∧
    (make_stat.update { IP := "9.9.9.9", date := ⟨2012, 7, 8⟩, page := "/w",
                        User_Agent := "wua", time := some 5 }).slowest_page =
      make_stat.slowest_page.update 5 "/w" ∧
    (make_stat.update { IP := "9.9.9.9", date := ⟨2012, 7, 8⟩, page := "/w",
                        User_Agent := "wua", time := some 5 }).slowest_average_page =
      make_stat.slowest_average_page.update 5 "/w" :=
  (C1_dispatch make_stat
    { IP := "9.9.9.9", date := ⟨2012, 7, 8⟩, page := "/w", User_Agent := "wua", time := some 5 }
    5).1 rfl (by decide)

/-- Counterexample to C1 as stated: `c1_line` parses to a record whose
`responseTimeMs` is present (with value 0), yet the three timed accumulators
are left unchanged by the dispatch, although feeding them with `(0, page)`
would have changed each of them. -/
theorem C1_counterexample :
    Parser.parse c1_line = Except.ok (some c1_rec) ∧
    c1_rec.time = some 0 ∧
    (make_stat.update c1_rec).fastest_page = make_stat.fastest_page ∧
    (make_stat.update c1_rec).slowest_page = make_stat.slowest_page ∧
    (make_stat.update c1_rec).slowest_average_page = make_stat.slowest_average_page ∧
    make_stat.fastest_page.update 0 c1_rec.page ≠ make_stat.fastest_page ∧
    make_stat.slowest_page.update 0 c1_rec.page ≠ make_stat.slowest_page ∧
    make_stat.slowest_average_page.update 0 c1_rec.page ≠ make_stat.slowest_average_page := by
  refine ⟨rfl, rfl, rfl, rfl, rfl, ?_, ?_, ?_⟩ <;> decide

/-- A fold of slowest-page updates in which every time is strictly below the
current extreme leaves the accumulator unchanged. -/
theorem slowest_foldl_untouched (l : List (Nat × String)) (s : SlowestPageStat)
    (h : ∀ x ∈ l, x.1 < s.max_time) :
    l.foldl (fun st x => SlowestPageStat.update st x.1 x.2) s = s := by
  induction l with
  | nil => rfl
  | cons x l ih =>
    have hx : x.1 < s.max_time := h x (by simp)
    have hs : SlowestPageStat.update s x.1 x.2 = s := by
      unfold SlowestPageStat.update
      rw [if_neg (by omega)]
    simp only [List.foldl_cons, hs]
    exact ih (fun y hy => h y (by simp [hy]))

/-- A fold of slowest-page updates whose times are bounded by `M`, with at
least one time equal to `M` and a current extreme at most `M`, ends holding
the page of the last update with time `M`. -/
theorem slowest_foldl_last (l : List (Nat × String)) (s : SlowestPageStat) (M : Nat)
    (hub : ∀ x ∈ l, x.1 ≤ M) (hs : s.max_time ≤ M) (hex : ∃ x ∈ l, x.1 = M) :
    some ((l.foldl (fun st x => SlowestPageStat.update st x.1 x.2) s).value) =
      (l.reverse.find? (fun x => x.1 == M)).map Prod.snd := by
  induction l generalizing s with
  | nil => simp at hex
  | cons x l ih =>
    simp only [List.foldl_cons, List.reverse_cons]
    rw [List.find?_append]
    by_cases hxM : x.1 = M
    · have hupd : SlowestPageStat.update s x.1 x.2 = { max_time := x.1, value := x.2 } := by
        unfold SlowestPageStat.update
        rw [if_pos (by omega)]
      by_cases hl : ∃ y ∈ l, y.1 = M
      · rw [hupd,
          ih { max_time := x.1, value := x.2 } (fun y hy => hub y (by simp [hy]))
            (by simpa using le_of_eq hxM) hl]
        rcases hfind : l.reverse.find? (fun y => y.1 == M) with _ | z
        · exfalso
          obtain ⟨y, hy, hyM⟩ := hl
          have := List.find?_eq_none.mp hfind y (by simpa using hy)
          simp [hyM] at this
        · rw [hfind]
          rfl
      · push_neg at hl
        have hlt : ∀ y ∈ l, y.1 < ({ max_time := x.1, value := x.2 } : SlowestPageStat).max_time := by
          intro y hy
          have h1 := hub y (by simp [hy])
          have h2 := hl y hy
          simp only []
          omega
        rw [hupd, slowest_foldl_untouched l _ hlt]
        have hnone : l.reverse.find? (fun y => y.1 == M) = none := by
          apply List.find?_eq_none.mpr
          intro y hy
          simp only [beq_iff_eq]
          exact hl y (by simpa using hy)
        rw [hnone]
        simp [hxM]
    · have hx1 : x.1 < M := by
        have := hub x (by simp)
        omega
      obtain ⟨y, hy, hyM⟩ := hex
      have hyl : y ∈ l := by
        rcases List.mem_cons.mp hy with h | h
        · exact absurd (h ▸ hyM) hxM
        · exact h
      have hs2 : (SlowestPageStat.update s x.1 x.2).max_time ≤ M := by
        unfold SlowestPageStat.update
        split
        · simpa using le_of_lt hx1
        · exact hs
      rw [ih (SlowestPageStat.update s x.1 x.2) (fun y hy => hub y (by simp [hy])) hs2
        ⟨y, hyl, hyM⟩]
      rcases hfind : l.reverse.find? (fun y => y.1 == M) with _ | z
      · exfalso
        have := List.find?_eq_none.mp hfind y (by simpa using hyl)
        simp [hyM] at this
      · rw [hfind]
        rfl

/-- A fold of fastest-page updates in which every time is strictly above the
current extreme leaves the accumulator unchanged. -/
theorem fastest_foldl_untouched (l : List (Nat × String)) (s : FastestPageStat)
    (h : ∀ x ∈ l, s.min_time < x.1) :
    l.foldl (fun st x => FastestPageStat.update st x.1 x.2) s = s := by
  induction l with
  | nil => rfl
  | cons x l ih =>
    have hx : s.min_time < x.1 := h x (by simp)
    have hs : FastestPageStat.update s x.1 x.2 = s := by
      unfold FastestPageStat.update
      rw [if_neg (by omega)]
    simp only [List.foldl_cons, hs]
    exact ih (fun y hy => h y (by simp [hy]))

/-- A fold of fastest-page updates whose times are bounded below by `M`,
with at least one time equal to `M` and a current extreme at least `M`, ends
holding the page of the last update with time `M`. -/
theorem fastest_foldl_last (l : List (Nat × String)) (s : FastestPageStat) (M : Nat)
    (hlb : ∀ x ∈ l, M ≤ x.1) (hs : M ≤ s.min_time) (hex : ∃ x ∈ l, x.1 = M) :
    some ((l.foldl (fun st x => FastestPageStat.update st x.1 x.2) s).value) =
      (l.reverse.find? (fun x => x.1 == M)).map Prod.snd := by
  induction l generalizing s with
  | nil => simp at hex
  | cons x l ih =>
    simp only [List.foldl_cons, List.reverse_cons]
    rw [List.find?_append]
    by_cases hxM : x.1 = M
    · have hupd : FastestPageStat.update s x.1 x.2 = { min_time := x.1, value := x.2 } := by
        unfold FastestPageStat.update
        rw [if_pos (by omega)]
      by_cases hl : ∃ y ∈ l, y.1 = M
      · rw [hupd,
          ih { min_time := x.1, value := x.2 } (fun y hy => hlb y (by simp [hy]))
            (by simpa using ge_of_eq hxM) hl]
        rcases hfind : l.reverse.find? (fun y => y.1 == M) with _ | z
        · exfalso
          obtain ⟨y, hy, hyM⟩ := hl
          have := List.find?_eq_none.mp hfind y (by simpa using hy)
          simp [hyM] at this
        · rw [hfind]
          rfl
      · push_neg at hl
        have hlt : ∀ y ∈ l, ({ min_time := x.1, value := x.2 } : FastestPageStat).min_time < y.1 := by
          intro y hy
          have h1 := hlb y (by simp [hy])
          have h2 := hl y hy
          simp only []
          omega
        rw [hupd, fastest_foldl_untouched l _ hlt]
        have hnone : l.reverse.find? (fun y => y.1 == M) = none := by
          apply List.find?_eq_none.mpr
          intro y hy
          simp only [beq_iff_eq]
          exact hl y (by simpa using hy)
        rw [hnone]
        simp [hxM]
    · have hx1 : M < x.1 := by
        have := hlb x (by simp)
        omega
      obtain ⟨y, hy, hyM⟩ := hex
      have hyl : y ∈ l := by
        rcases List.mem_cons.mp hy with h | h
        · exact absurd (h ▸ hyM) hxM
        · exact h
      have hs2 : M ≤ (FastestPageStat.update s x.1 x.2).min_time := by
        unfold FastestPageStat.update
        split
        · simpa using le_of_lt hx1
        · exact hs
      rw [ih (FastestPageStat.update s x.1 x.2) (fun y hy => hlb y (by simp [hy])) hs2
        ⟨y, hyl, hyM⟩]
      rcases hfind : l.reverse.find? (fun y => y.1 == M) with _ | z
      · exfalso
        have := List.find?_eq_none.mp hfind y (by simpa using hyl)
        simp [hyM] at this
      · rw [hfind]
        rfl

/-- **C6 (amended)**: `SlowestPageStat.update` installs `(time, page)`
exactly when `time` is at least the current extreme, and
`FastestPageStat.update` exactly when `time` is at most the current extreme;
consequently, over any sequence of timed updates, `value()` holds the page
of the last record tying for the sequence extreme — unconditionally for the
slowest accumulator, and provided the minimum time does not exceed the
fastest sentinel `10**10` for the fastest accumulator. -/
theorem C6_extreme_tracking (sl : SlowestPageStat) (fa : FastestPageStat)
    (t : Nat) (p : String) (l : List (Nat × String)) (M : Nat) :
    (SlowestPageStat.update sl t p = { max_time := t, value := p } ↔ sl.max_time ≤ t) ∧
    (FastestPageStat.update fa t p = { min_time := t, value := p } ↔ t ≤ fa.min_time) ∧
    ((∀ x ∈ l, x.1 ≤ M) → (∃ x ∈ l, x.1 = M) →
      some ((l.foldl (fun st x => SlowestPageStat.update st x.1 x.2)
          ({} : SlowestPageStat)).value) =
        (l.reverse.find? (fun x => x.1 == M)).map Prod.snd) ∧
    ((∀ x ∈ l, M ≤ x.1) → M ≤ 10 ^ 10 → (∃ x ∈ l, x.1 = M) →
      some ((l.foldl (fun st x => FastestPageStat.update st x.1 x.2)
          ({} : FastestPageStat)).value) =
        (l.reverse.find? (fun x => x.1 == M)).map Prod.snd) := by
  refine ⟨?_, ?_, ?_, ?_⟩
  · constructor
    · intro h
      by_contra hc
      have : SlowestPageStat.update sl t p = sl := by
        unfold SlowestPageStat.update
        rw [if_neg (by omega)]
      rw [this] at h
      have := congrArg SlowestPageStat.max_time h
      simp at this
      omega
    · intro h
      unfold SlowestPageStat.update
      rw [if_pos (by omega)]
  · constructor
    · intro h
      by_contra hc
      have : FastestPageStat.update fa t p = fa := by
        unfold FastestPageStat.update
        rw [if_neg (by omega)]
      rw [this] at h
      have := congrArg FastestPageStat.min_time h
      simp at this
      omega
    · intro h
      unfold FastestPageStat.update
      rw [if_pos (by omega)]
  · intro hub hex
    exact slowest_foldl_last l {} M hub (by simp) hex
  · intro hlb hM hex
    exact fastest_foldl_last l {} M hlb (by simpa using hM) hex

/-- Witness for C6: the update equations at concrete inputs, and the two
fold conclusions on short concrete sequences with ties. -/
theorem C6_extreme_tracking_witness :
    SlowestPageStat.update {} 5 "x" = { max_time := 5, value := "x" } ∧
    FastestPageStat.update {} 5 "x" = { min_time := 5, value := "x" } ∧
    some ((([(3, "a"), (7, "b"), (7, "c")] : List (Nat × String)).foldl
        (fun st x => SlowestPageStat.update st x.1 x.2) ({} : SlowestPageStat)).value) =
      some "c" ∧
    some ((([(3, "a"), (7, "b"), (3, "c")] : List (Nat × String)).foldl
        (fun st x => FastestPageStat.update st x.1 x.2) ({} : FastestPageStat)).value) =
      some "c" := by
  refine ⟨?_, ?_, ?_, ?_⟩
  · exact (C6_extreme_tracking {} {} 5 "x" [] 0).1.mpr (by decide)
  · exact (C6_extreme_tracking {} {} 5 "x" [] 0).2.1.mpr (by decide)
  · rw [(C6_extreme_tracking {} {} 5 "x" [(3, "a"), (7, "b"), (7, "c")] 7).2.2.1
      (by decide) (by decide)]
    decide
  · rw [(C6_extreme_tracking {} {} 5 "x" [(3, "a"), (7, "b"), (3, "c")] 3).2.2.2
      (by decide) (by decide) (by decide)]
    decide

/-- Counterexample to C6 as stated: both updates of `c6_list` tie for the
extreme (minimum) time `10**10 + 1` of the sequence, the last of them being
the record with page `"b"`, yet `FastestPageStat` ends with `value() = ""`,
because the sentinel `10**10` is below every time in the sequence. -/
theorem C6_counterexample :
    (c6_list.foldl (fun st x => FastestPageStat.update st x.1 x.2)
        ({} : FastestPageStat)).value = "" ∧
    (c6_list.reverse.find? (fun x => x.1 == 10 ^ 10 + 1)).map Prod.snd = some "b" ∧
    (∀ x ∈ c6_list, 10 ^ 10 + 1 ≤ x.1) ∧
    ("" : String) ≠ "b" := by
  refine ⟨?_, ?_, ?_, ?_⟩ <;> decide

/-! ### Properties of the code-point order on strings -/

theorem char_eq_of_toNat_eq (a b : Char) (h : a.toNat = b.toNat) : a = b :=
  Char.eq_of_val_eq (UInt32.eq_of_val_eq (Fin.eq_of_val_eq h))

theorem listLexLe_refl (a : List Char) : listLexLe a a = true := by
  induction a with
  | nil => rfl
  | cons x xs ih =>
    unfold listLexLe
    rw [if_neg (by omega), if_neg (by omega)]
    exact ih

theorem listLexLe_total (a : List Char) : ∀ b, listLexLe a b = true ∨ listLexLe b a = true := by
  induction a with
  | nil => intro b; left; rfl
  | cons x xs ih =>
    intro b
    cases b with
    | nil => right; rfl
    | cons y ys =>
      unfold listLexLe
      rcases Nat.lt_trichotomy x.toNat y.toNat with h | h | h
      · left; rw [if_pos h]
      · rcases ih ys with h2 | h2
        · left; rw [if_neg (by omega), if_neg (by omega)]; exact h2
        · right; rw [if_neg (by omega), if_neg (by omega)]; exact h2
      · right; rw [if_pos h]

theorem listLexLe_antisymm (a : List Char) :
    ∀ b, listLexLe a b = true → listLexLe b a = true → a = b := by
  induction a with
  | nil =>
    intro b h1 h2
    cases b with
    | nil => rfl
    | cons y ys => exact absurd h2 (by simp [listLexLe])
  | cons x xs ih =>
    intro b h1 h2
    cases b with
    | nil => exact absurd h1 (by simp [listLexLe])
    | cons y ys =>
      unfold listLexLe at h1 h2
      rcases Nat.lt_trichotomy x.toNat y.toNat with h | h | h
      · rw [if_neg (by omega), if_pos h] at h2
        exact absurd h2 (by simp)
      · rw [if_neg (by omega), if_neg (by omega)] at h1
        rw [if_neg (by omega), if_neg (by omega)] at h2
        rw [char_eq_of_toNat_eq x y h, ih ys h1 h2]
      · rw [if_neg (by omega), if_pos h] at h1
        exact absurd h1 (by simp)

theorem listLexLe_trans (a : List Char) :
    ∀ b c, listLexLe a b = true → listLexLe b c = true → listLexLe a c = true := by
  induction a with
  | nil => intro b c h1 h2; rfl
  | cons x xs ih =>
    intro b c h1 h2
    cases b with
    | nil => exact absurd h1 (by simp [listLexLe])
    | cons y ys =>
      cases c with
      | nil => exact absurd h2 (by simp [listLexLe])
      | cons z zs =>
        unfold listLexLe at h1 h2 ⊢
        rcases Nat.lt_trichotomy x.toNat y.toNat with hxy | hxy | hxy <;>
          rcases Nat.lt_trichotomy y.toNat z.toNat with hyz | hyz | hyz
        · rw [if_pos (by omega)]
        · rw [if_pos (by omega)]
        · rw [if_neg (by omega), if_pos hyz] at h2
          exact absurd h2 (by simp)
        · rw [if_pos (by omega)]
        · rw [if_neg (by omega), if_neg (by omega)] at h1
          rw [if_neg (by omega), if_neg (by omega)] at h2
          rw [if_neg (by omega), if_neg (by omega)]
          exact ih ys zs h1 h2
        · rw [if_neg (by omega), if_pos hyz] at h2
          exact absurd h2 (by simp)
        · rw [if_neg (by omega), if_pos hxy] at h1
          exact absurd h1 (by simp)
        · rw [if_neg (by omega), if_pos hxy] at h1
          exact absurd h1 (by simp)
        · rw [if_neg (by omega), if_pos hxy] at h1
          exact absurd h1 (by simp)

theorem pyLe_refl (a : String) : pyLe a a := listLexLe_refl a.data

instance : IsTotal String pyLe := ⟨fun a b => listLexLe_total a.data b.data⟩

instance : IsTrans String pyLe := ⟨fun a b c => listLexLe_trans a.data b.data c.data⟩

instance : IsAntisymm String pyLe :=
  ⟨fun a b h1 h2 => by
    cases a with
    | mk da =>
      cases b with
      | mk db => exact congrArg String.mk (listLexLe_antisymm da db h1 h2)⟩

theorem sortKeys_perm (l : List String) : (sortKeys l).Perm l :=
  List.perm_insertionSort pyLe l

theorem sortKeys_sorted (l : List String) : (sortKeys l).Sorted pyLe :=
  List.sorted_insertionSort pyLe l

/-! ### The fold computing `max(values)` -/

theorem foldl_max_le (l : List Nat) (a M : Nat) (ha : a ≤ M) (h : ∀ x ∈ l, x ≤ M) :
    l.foldl Nat.max a ≤ M := by
  induction l generalizing a with
  | nil => exact ha
  | cons x l ih =>
    exact ih (Nat.max a x) (Nat.max_le.mpr ⟨ha, h x (by simp)⟩)
      (fun y hy => h y (by simp [hy]))

theorem le_foldl_max (l : List Nat) (a : Nat) :
    a ≤ l.foldl Nat.max a ∧ ∀ x ∈ l, x ≤ l.foldl Nat.max a := by
  induction l generalizing a with
  | nil => exact ⟨Nat.le_refl a, by simp⟩
  | cons x l ih =>
    obtain ⟨h1, h2⟩ := ih (Nat.max a x)
    simp only [List.foldl_cons]
    refine ⟨le_trans (Nat.le_max_left a x) h1, ?_⟩
    intro y hy
    rcases List.mem_cons.mp hy with h | h
    · subst h
      exact le_trans (Nat.le_max_right a y) h1
    · exact h2 y h

theorem foldl_max_mem (l : List Nat) (a : Nat) :
    l.foldl Nat.max a = a ∨ l.foldl Nat.max a ∈ l := by
  induction l generalizing a with
  | nil => left; rfl
  | cons x l ih =>
    rcases ih (Nat.max a x) with h | h
    · rcases Nat.le_total a x with hax | hax
      · right
        rw [List.foldl_cons, h]
        simp [Nat.max_eq_right hax]
      · left
        rw [List.foldl_cons, h]
        exact Nat.max_eq_left hax
    · right
      rw [List.foldl_cons]
      simp [h]

theorem foldl_max_eq (l : List Nat) (M : Nat) (h : ∀ x ∈ l, x ≤ M) (hm : M ∈ l) :
    l.foldl Nat.max 0 = M :=
  Nat.le_antisymm (foldl_max_le l 0 M (Nat.zero_le M) h) ((le_foldl_max l 0).2 M hm)

/-! ### Association-list lookups -/

theorem lookup_eq_some_of_mem {β : Type} (m : List (String × β)) (k : String) (v : β)
    (hnd : (m.map Prod.fst).Nodup) (h : (k, v) ∈ m) : m.lookup k = some v := by
  induction m with
  | nil => simp at h
  | cons kv m ih =>
    obtain ⟨k', v'⟩ := kv
    have hnd2 : (k' :: m.map Prod.fst).Nodup := by simpa using hnd
    rcases List.mem_cons.mp h with h2 | h2
    · cases h2
      simp [List.lookup]
    · have hk : k ≠ k' := by
        rintro rfl
        exact (List.nodup_cons.mp hnd2).1 (List.mem_map_of_mem Prod.fst h2)
      have hbeq : (k == k') = false := beq_eq_false_iff_ne.mpr hk
      simp only [List.lookup, hbeq]
      exact ih (List.nodup_cons.mp hnd2).2 h2

theorem mem_of_lookup_eq_some {β : Type} (m : List (String × β)) (k : String) (v : β)
    (h : m.lookup k = some v) : (k, v) ∈ m := by
  induction m with
  | nil => simp [List.lookup] at h
  | cons kv m ih =>
    obtain ⟨k', v'⟩ := kv
    by_cases hk : k = k'
    · subst hk
      simp [List.lookup] at h
      simp [h]
    · have hbeq : (k == k') = false := beq_eq_false_iff_ne.mpr hk
      simp only [List.lookup, hbeq] at h
      exact List.mem_cons_of_mem _ (ih h)

theorem lookup_isSome_of_key_mem {β : Type} (m : List (String × β)) (k : String)
    (h : k ∈ m.map Prod.fst) : ∃ v, m.lookup k = some v := by
  induction m with
  | nil => simp at h
  | cons kv m ih =>
    obtain ⟨k', v'⟩ := kv
    by_cases hk : k = k'
    · subst hk
      exact ⟨v', by simp [List.lookup]⟩
    · have hbeq : (k == k') = false := beq_eq_false_iff_ne.mpr hk
      simp only [List.lookup, hbeq]
      exact ih (by
        rcases List.mem_map.mp h with ⟨p, hp, hpk⟩
        rcases List.mem_cons.mp hp with h2 | h2
        · exact absurd (by rw [← hpk, h2]) hk
        · exact hpk ▸ List.mem_map_of_mem Prod.fst h2)

/-! ### `find?` on lists -/

theorem find?_congr_mem {α : Type} (l : List α) (p q : α → Bool)
    (h : ∀ a ∈ l, p a = q a) : l.find? p = l.find? q := by
  induction l with
  | nil => rfl
  | cons x l ih =>
    simp only [List.find?]
    rw [← h x (by simp)]
    cases hp : p x
    · exact ih (fun a ha => h a (by simp [ha]))
    · rfl

theorem find?_sorted_min (l : List String) (p : String → Bool) (k : String)
    (hs : l.Sorted pyLe) (hf : l.find? p = some k) :
    ∀ b ∈ l, p b = true → pyLe k b := by
  induction l with
  | nil => simp at hf
  | cons x l ih =>
    intro b hb hpb
    simp only [List.find?] at hf
    cases hpx : p x with
    | true =>
      rw [hpx] at hf
      have hxk : x = k := by simpa using hf
      subst hxk
      rcases List.mem_cons.mp hb with h2 | h2
      · rw [h2]
        exact pyLe_refl x
      · exact List.rel_of_sorted_cons hs b h2
    | false =>
      rw [hpx] at hf
      rcases List.mem_cons.mp hb with h2 | h2
      · exact absurd (h2 ▸ hpb) (by simp [hpx])
      · exact ih hs.of_cons hf b h2 hpb

/-- **C3**: `lexicographic_min` returns `""` on the empty mapping; on any
mapping (distinct keys) whose counts are bounded by `M` with `M` attained,
it returns a key whose count is `M` that is smallest, in the code-point
lexicographic order, among all keys whose count is `M`. -/
theorem C3_lexicographic_min (data : List (String × Nat)) (M : Nat)
    (hnd : (data.map Prod.fst).Nodup)
    (hub : ∀ kv ∈ data, kv.2 ≤ M) (hex : ∃ kv ∈ data, kv.2 = M) :
    lexicographic_min ([] : List (String × Nat)) = "" ∧
    (lexicographic_min data, M) ∈ data ∧
    ∀ kv ∈ data, kv.2 = M → pyLe (lexicographic_min data) kv.1 := by
  obtain ⟨kv0, hkv0, hkv0M⟩ := hex
  obtain ⟨k0, v0⟩ := kv0
  have hne : data ≠ [] := by rintro rfl; simp at hkv0
  have hmax : (data.map Prod.snd).foldl Nat.max 0 = M := by
    apply foldl_max_eq
    · intro v hv
      rcases List.mem_map.mp hv with ⟨kv, hkv, rfl⟩
      exact hub kv hkv
    · exact hkv0M ▸ List.mem_map_of_mem Prod.snd hkv0
  have hunfold : lexicographic_min data =
      match (sortKeys (data.map Prod.fst)).find? (fun k => (data.lookup k).getD 0 == M) with
      | some k => k
      | none => "" := by
    rw [← hmax]
    cases data with
    | nil => exact absurd rfl hne
    | cons a b => rfl
  have hp0 : (fun k => (data.lookup k).getD 0 == M) k0 = true := by
    have hl : data.lookup k0 = some v0 := lookup_eq_some_of_mem data k0 v0 hnd hkv0
    simp only [hl, Option.getD_some, beq_iff_eq]
    simpa using hkv0M
  have hmem0 : k0 ∈ sortKeys (data.map Prod.fst) :=
    ((sortKeys_perm (data.map Prod.fst)).mem_iff).mpr (List.mem_map_of_mem Prod.fst hkv0)
  rcases hfind : (sortKeys (data.map Prod.fst)).find? (fun k => (data.lookup k).getD 0 == M)
    with _ | k
  · exact absurd hp0 (by simpa using List.find?_eq_none.mp hfind k0 hmem0)
  · have hval : lexicographic_min data = k := by rw [hunfold, hfind]
    have hkmem : k ∈ sortKeys (data.map Prod.fst) := List.mem_of_find?_eq_some hfind
    have hkkeys : k ∈ data.map Prod.fst := (sortKeys_perm _).mem_iff.mp hkmem
    obtain ⟨v, hv⟩ := lookup_isSome_of_key_mem data k hkkeys
    have hpk := List.find?_some hfind
    have hvM : v = M := by
      rw [hv] at hpk
      simpa using hpk
    refine ⟨rfl, ?_, ?_⟩
    · rw [hval]
      exact hvM ▸ mem_of_lookup_eq_some data k v hv
    · intro kv hkv hkvM
      rw [hval]
      apply find?_sorted_min (sortKeys (data.map Prod.fst)) _ k (sortKeys_sorted _) hfind
      · exact (sortKeys_perm _).mem_iff.mpr (List.mem_map_of_mem Prod.fst hkv)
      · have hl : data.lookup kv.1 = some kv.2 := lookup_eq_some_of_mem data kv.1 kv.2 hnd hkv
        simp [hl, hkvM]

/-- Witness for C3 on a concrete mapping with a lexicographic tie at the
maximum count 2. -/
theorem C3_lexicographic_min_witness :
    lexicographic_min ([] : List (String × Nat)) = "" ∧
    (lexicographic_min [("b", 2), ("a", 2), ("c", 1)], 2) ∈
      ([("b", 2), ("a", 2), ("c", 1)] : List (String × Nat)) ∧
    pyLe (lexicographic_min [("b", 2), ("a", 2), ("c", 1)]) "b" := by
  have h := C3_lexicographic_min [("b", 2), ("a", 2), ("c", 1)] 2 (by decide) (by decide)
    ⟨("b", 2), by decide, rfl⟩
  exact ⟨h.1, h.2.1, h.2.2 ("b", 2) (by decide) rfl⟩

/-! ### Counting-map updates and permutation invariance -/

theorem incr_lookup (m : List (String × Nat)) (k k' : String) :
    (incr m k).lookup k' =
      if k' = k then some ((m.lookup k').getD 0 + 1) else m.lookup k' := by
  induction m with
  | nil =>
    by_cases h : k' = k
    · subst h
      simp [incr, List.lookup]
    · have hbeq : (k' == k) = false := beq_eq_false_iff_ne.mpr h
      simp [incr, List.lookup, hbeq, h]
  | cons kv m ih =>
    obtain ⟨k1, v1⟩ := kv
    by_cases h1 : k1 = k
    · subst h1
      simp only [incr, if_pos rfl]
      by_cases h2 : k' = k1
      · subst h2
        simp [List.lookup]
      · have hbeq : (k' == k1) = false := beq_eq_false_iff_ne.mpr h2
        simp [List.lookup, hbeq, h2]
    · simp only [incr, if_neg h1]
      by_cases h2 : k' = k1
      · subst h2
        simp [List.lookup, if_neg h1]
      · have hbeq : (k' == k1) = false := beq_eq_false_iff_ne.mpr h2
        simp only [List.lookup, hbeq]
        exact ih

theorem incr_keys (m : List (String × Nat)) (k : String) :
    (incr m k).map Prod.fst =
      if k ∈ m.map Prod.fst then m.map Prod.fst else m.map Prod.fst ++ [k] := by
  induction m with
  | nil => simp [incr]
  | cons kv m ih =>
    obtain ⟨k1, v1⟩ := kv
    by_cases h1 : k1 = k
    · subst h1
      simp [incr]
    · simp only [incr, if_neg h1, List.map_cons, ih]
      by_cases h2 : k ∈ m.map Prod.fst
      · rw [if_pos h2, if_pos (by simp [h2])]
      · rw [if_neg h2, if_neg (by
          simp only [List.mem_cons, not_or]
          exact ⟨fun hc => h1 hc.symm, h2⟩)]
        rfl

theorem incr_keys_nodup (m : List (String × Nat)) (k : String)
    (h : (m.map Prod.fst).Nodup) : ((incr m k).map Prod.fst).Nodup := by
  rw [incr_keys]
  by_cases h2 : k ∈ m.map Prod.fst
  · rw [if_pos h2]
    exact h
  · rw [if_neg h2]
    simp [List.nodup_append, h, h2]

theorem foldl_incr_keys_nodup (us : List String) (m : List (String × Nat))
    (h : (m.map Prod.fst).Nodup) : ((us.foldl incr m).map Prod.fst).Nodup := by
  induction us generalizing m with
  | nil => exact h
  | cons u us ih => exact ih (incr m u) (incr_keys_nodup m u h)

theorem foldl_incr_lookup (us : List String) (m : List (String × Nat)) (k : String) :
    (us.foldl incr m).lookup k =
      match m.lookup k with
      | some v => some (v + us.count k)
      | none => if 0 < us.count k then some (us.count k) else none := by
  induction us generalizing m with
  | nil => cases h : m.lookup k <;> simp [h]
  | cons u us ih =>
    simp only [List.foldl_cons]
    rw [ih (incr m u), incr_lookup m u k]
    by_cases hk : k = u
    · subst hk
      rw [if_pos rfl]
      cases h : m.lookup k <;>
        simp [h, List.count_cons] <;> omega
    · rw [if_neg hk]
      have hne2 : ¬ u = k := fun hc => hk hc.symm
      cases h : m.lookup k <;> simp [h, List.count_cons, hne2]

theorem lexicographic_min_unfold (data : List (String × Nat)) (hne : data ≠ []) :
    lexicographic_min data =
      match (sortKeys (data.map Prod.fst)).find?
          (fun k => (data.lookup k).getD 0 == (data.map Prod.snd).foldl Nat.max 0) with
      | some k => k
      | none => "" := by
  cases data with
  | nil => exact absurd rfl hne
  | cons a b => rfl

/-- `lexicographic_min` depends only on the lookup function of a
distinct-key mapping, not on its insertion order. -/
theorem lexicographic_min_congr (d1 d2 : List (String × Nat))
    (h1 : (d1.map Prod.fst).Nodup) (h2 : (d2.map Prod.fst).Nodup)
    (h : ∀ k, d1.lookup k = d2.lookup k) :
    lexicographic_min d1 = lexicographic_min d2 := by
  have hmemiff : ∀ kv : String × Nat, kv ∈ d1 ↔ kv ∈ d2 := by
    intro kv
    obtain ⟨k, v⟩ := kv
    constructor
    · intro hm
      exact mem_of_lookup_eq_some d2 k v (by rw [← h k]; exact lookup_eq_some_of_mem d1 k v h1 hm)
    · intro hm
      exact mem_of_lookup_eq_some d1 k v (by rw [h k]; exact lookup_eq_some_of_mem d2 k v h2 hm)
  have hperm : d1.Perm d2 := by
    apply List.perm_of_nodup_nodup_toFinset_eq (h1.of_map Prod.fst) (h2.of_map Prod.fst)
    ext kv
    simp [List.mem_toFinset, hmemiff kv]
  have hkeysperm : (d1.map Prod.fst).Perm (d2.map Prod.fst) := hperm.map Prod.fst
  have hsorteq : sortKeys (d1.map Prod.fst) = sortKeys (d2.map Prod.fst) :=
    List.eq_of_perm_of_sorted
      (((sortKeys_perm _).trans hkeysperm).trans (sortKeys_perm _).symm)
      (sortKeys_sorted _) (sortKeys_sorted _)
  have hvalsperm : (d1.map Prod.snd).Perm (d2.map Prod.snd) := hperm.map Prod.snd
  have hmaxeq : (d1.map Prod.snd).foldl Nat.max 0 = (d2.map Prod.snd).foldl Nat.max 0 := by
    apply Nat.le_antisymm
    · exact foldl_max_le _ 0 _ (Nat.zero_le _)
        (fun x hx => (le_foldl_max (d2.map Prod.snd) 0).2 x (hvalsperm.mem_iff.mp hx))
    · exact foldl_max_le _ 0 _ (Nat.zero_le _)
        (fun x hx => (le_foldl_max (d1.map Prod.snd) 0).2 x (hvalsperm.mem_iff.mpr hx))
  cases hd1 : d1 with
  | nil =>
    cases hd2 : d2 with
    | nil => rfl
    | cons b t2 =>
      rw [hd1, hd2] at hperm
      simpa using hperm.length_eq
  | cons a t =>
    cases hd2 : d2 with
    | nil =>
      rw [hd1, hd2] at hperm
      simpa using hperm.length_eq
    | cons b t2 =>
      rw [← hd1, ← hd2]
      rw [lexicographic_min_unfold d1 (by rw [hd1]; simp),
          lexicographic_min_unfold d2 (by rw [hd2]; simp)]
      rw [hsorteq, hmaxeq,
        find?_congr_mem (sortKeys (d2.map Prod.fst)) _ _
          (fun k _ => by rw [h k])]

theorem counting_value_perm (us vs : List String) (h : us.Perm vs) :
    lexicographic_min (us.foldl incr []) = lexicographic_min (vs.foldl incr []) := by
  apply lexicographic_min_congr
  · exact foldl_incr_keys_nodup us [] (by simp)
  · exact foldl_incr_keys_nodup vs [] (by simp)
  · intro k
    rw [foldl_incr_lookup us [] k, foldl_incr_lookup vs [] k]
    have : ([] : List (String × Nat)).lookup k = none := rfl
    rw [this, h.count_eq k]

theorem popular_page_foldl_pages (us : List String) (s : MostPopularPageStat) :
    (us.foldl MostPopularPageStat.update s).pages = us.foldl incr s.pages := by
  induction us generalizing s with
  | nil => rfl
  | cons u us ih =>
    simp only [List.foldl_cons]
    exact ih (MostPopularPageStat.update s u)

theorem active_client_foldl_clients (us : List String) (s : MostActiveClientStat) :
    (us.foldl MostActiveClientStat.update s).clients = us.foldl incr s.clients := by
  induction us generalizing s with
  | nil => rfl
  | cons u us ih =>
    simp only [List.foldl_cons]
    exact ih (MostActiveClientStat.update s u)

theorem popular_browser_foldl_browsers (us : List String) (s : MostPopularBrowserStat) :
    (us.foldl MostPopularBrowserStat.update s).browsers = us.foldl incr s.browsers := by
  induction us generalizing s with
  | nil => rfl
  | cons u us ih =>
    simp only [List.foldl_cons]
    exact ih (MostPopularBrowserStat.update s u)

theorem byday_foldl (ps : List (PyDate × String)) (d : PyDate) (m : List (String × Nat)) :
    (ps.foldl (fun st x => MostActiveClientByDayStat.update st x.1 x.2)
        ({ date := d, clients := m } : MostActiveClientByDayStat)) =
      { date := d,
        clients := (ps.filterMap (fun x => if x.1 = d then some x.2 else none)).foldl incr m } := by
  induction ps generalizing m with
  | nil => rfl
  | cons x ps ih =>
    simp only [List.foldl_cons]
    by_cases hx : x.1 = d
    · have hupd : MostActiveClientByDayStat.update { date := d, clients := m } x.1 x.2 =
          { date := d, clients := incr m x.2 } := by
        unfold MostActiveClientByDayStat.update
        rw [if_neg (by simp [hx])]
      rw [hupd, ih (incr m x.2)]
      have hfm : (x :: ps).filterMap (fun x => if x.1 = d then some x.2 else none) =
          x.2 :: ps.filterMap (fun x => if x.1 = d then some x.2 else none) := by
        simp [List.filterMap_cons, hx]
      rw [hfm, List.foldl_cons]
    · have hupd : MostActiveClientByDayStat.update { date := d, clients := m } x.1 x.2 =
          { date := d, clients := m } := by
        unfold MostActiveClientByDayStat.update
        rw [if_pos (by simp; exact fun hc => hx hc.symm)]
      rw [hupd, ih m]
      have hfm : (x :: ps).filterMap (fun x => if x.1 = d then some x.2 else none) =
          ps.filterMap (fun x => if x.1 = d then some x.2 else none) := by
        simp [List.filterMap_cons, hx]
      rw [hfm]

/-- **C4**: each popularity-style accumulator is insertion-order invariant:
for any two permuted sequences of update calls, `value()` agrees — for
`MostPopularPage`, `MostActiveClient`, `MostPopularBrowser`, and
`MostActiveClientByDay` (with any target date). -/
theorem C4_order_invariance (us vs : List String) (ps qs : List (PyDate × String))
    (d : PyDate) (h : us.Perm vs) (h2 : ps.Perm qs) :
    (us.foldl MostPopularPageStat.update {}).value =
      (vs.foldl MostPopularPageStat.update {}).value ∧
    (us.foldl MostActiveClientStat.update {}).value =
      (vs.foldl MostActiveClientStat.update {}).value ∧
    (us.foldl MostPopularBrowserStat.update {}).value =
      (vs.foldl MostPopularBrowserStat.update {}).value ∧
    (ps.foldl (fun st x => MostActiveClientByDayStat.update st x.1 x.2)
        ({ date := d } : MostActiveClientByDayStat)).value =
      (qs.foldl (fun st x => MostActiveClientByDayStat.update st x.1 x.2)
        ({ date := d } : MostActiveClientByDayStat)).value := by
  refine ⟨?_, ?_, ?_, ?_⟩
  · unfold MostPopularPageStat.value
    rw [popular_page_foldl_pages, popular_page_foldl_pages]
    exact counting_value_perm us vs h
  · unfold MostActiveClientStat.value
    rw [active_client_foldl_clients, active_client_foldl_clients]
    exact counting_value_perm us vs h
  · unfold MostPopularBrowserStat.value
    rw [popular_browser_foldl_browsers, popular_browser_foldl_browsers]
    exact counting_value_perm us vs h
  · unfold MostActiveClientByDayStat.value
    rw [byday_foldl ps d [], byday_foldl qs d []]
    have := counting_value_perm
      (ps.filterMap (fun x => if x.1 = d then some x.2 else none))
      (qs.filterMap (fun x => if x.1 = d then some x.2 else none))
      (h2.filterMap _)
    simp only []
    rw [this]

/-- Witness for C4 on concrete permuted update sequences. -/
theorem C4_order_invariance_witness :
    ((["b", "a"].foldl MostPopularPageStat.update {}).value =
      (["a", "b"].foldl MostPopularPageStat.update {}).value) ∧
    ((["b", "a"].foldl MostActiveClientStat.update {}).value =
      (["a", "b"].foldl MostActiveClientStat.update {}).value) ∧
    ((["b", "a"].foldl MostPopularBrowserStat.update {}).value =
      (["a", "b"].foldl MostPopularBrowserStat.update {}).value) ∧
    (([(⟨2012, 7, 8⟩, "x"), (⟨2012, 7, 9⟩, "y")].foldl
        (fun st x => MostActiveClientByDayStat.update st x.1 x.2)
        ({ date := ⟨2012, 7, 8⟩ } : MostActiveClientByDayStat)).value =
      ([(⟨2012, 7, 9⟩, "y"), (⟨2012, 7, 8⟩, "x")].foldl
        (fun st x => MostActiveClientByDayStat.update st x.1 x.2)
        ({ date := ⟨2012, 7, 8⟩ } : MostActiveClientByDayStat)).value) :=
  C4_order_invariance ["b", "a"] ["a", "b"]
    [(⟨2012, 7, 8⟩, "x"), (⟨2012, 7, 9⟩, "y")] [(⟨2012, 7, 9⟩, "y"), (⟨2012, 7, 8⟩, "x")]
    ⟨2012, 7, 8⟩ (by decide) (by decide)

/-! ### The slowest-average tie-break -/

theorem foldl_best_avg (t : List Page) (best : Page) :
    best.avg_time ≤
      (t.foldl (fun b y => if b.avg_time < y.avg_time then y else b) best).avg_time ∧
    (∀ y ∈ t,
      y.avg_time ≤
        (t.foldl (fun b y => if b.avg_time < y.avg_time then y else b) best).avg_time) ∧
    ((t.foldl (fun b y => if b.avg_time < y.avg_time then y else b) best) = best ∨
      (t.foldl (fun b y => if b.avg_time < y.avg_time then y else b) best) ∈ t) := by
  induction t generalizing best with
  | nil => exact ⟨le_refl _, by simp, Or.inl rfl⟩
  | cons x t ih =>
    simp only [List.foldl_cons]
    obtain ⟨ih1, ih2, ih3⟩ := ih (if best.avg_time < x.avg_time then x else best)
    have hb : best.avg_time ≤ (if best.avg_time < x.avg_time then x else best).avg_time := by
      split
      · exact le_of_lt (by assumption)
      · exact le_refl _
    have hx : x.avg_time ≤ (if best.avg_time < x.avg_time then x else best).avg_time := by
      split
      · exact le_refl _
      · exact le_of_not_lt (by assumption)
    refine ⟨le_trans hb ih1, ?_, ?_⟩
    · intro y hy
      rcases List.mem_cons.mp hy with h | h
      · rw [h]
        exact le_trans hx ih1
      · exact ih2 y h
    · rcases ih3 with h | h
      · rw [h]
        split
        · exact Or.inr (by simp)
        · exact Or.inl rfl
      · exact Or.inr (by simp [h])

theorem maxByAvg_eq_max (pages : List (String × Page)) (M : ℚ)
    (hne : pages ≠ []) (hub : ∀ kv ∈ pages, kv.2.avg_time ≤ M)
    (hex : ∃ kv ∈ pages, kv.2.avg_time = M) :
    ∃ q, maxByAvg (pages.map Prod.snd) = some q ∧ q.avg_time = M := by
  cases hp : pages with
  | nil => exact absurd hp hne
  | cons kv rest =>
    subst hp
    simp only [List.map_cons, maxByAvg]
    refine ⟨_, rfl, ?_⟩
    obtain ⟨h1, h2, h3⟩ := foldl_best_avg (rest.map Prod.snd) kv.2
    apply le_antisymm
    · rcases h3 with h | h
      · rw [h]
        exact hub kv (by simp)
      · rcases List.mem_map.mp h with ⟨kv2, hkv2, hkv2e⟩
        rw [← hkv2e]
        exact hub kv2 (by simp [hkv2])
    · obtain ⟨kv0, hkv0, hkv0M⟩ := hex
      rcases List.mem_cons.mp hkv0 with h | h
      · rw [← hkv0M, h]
        exact h1
      · rw [← hkv0M]
        exact h2 kv0.2 (List.mem_map_of_mem Prod.snd h)

theorem find?_keys_lookup {β : Type} (pages : List (String × β)) (q : β → Bool) (dflt : β)
    (hnd : (pages.map Prod.fst).Nodup) :
    (pages.map Prod.fst).find? (fun n => q ((pages.lookup n).getD dflt)) =
      (pages.find? (fun kv => q kv.2)).map Prod.fst := by
  induction pages with
  | nil => rfl
  | cons kv rest ih =>
    obtain ⟨k, v⟩ := kv
    have hnd2 : (k :: rest.map Prod.fst).Nodup := by simpa using hnd
    have hknotin : k ∉ rest.map Prod.fst := (List.nodup_cons.mp hnd2).1
    simp only [List.map_cons, List.find?]
    have hpk : ((((k, v) :: rest).lookup k).getD dflt) = v := by simp [List.lookup]
    rw [hpk]
    cases hq : q v with
    | true => rfl
    | false =>
      have hcongr :
          (rest.map Prod.fst).find? (fun n => q ((((k, v) :: rest).lookup n).getD dflt)) =
            (rest.map Prod.fst).find? (fun n => q ((rest.lookup n).getD dflt)) := by
        apply find?_congr_mem
        intro n hn
        have hne : (n == k) = false :=
          beq_eq_false_iff_ne.mpr (fun hc => hknotin (hc ▸ hn))
        simp [List.lookup, hne]
      rw [hcongr, ih (List.nodup_cons.mp hnd2).2]

/-- **C5**: for a non-empty page mapping (distinct keys) whose averages are
bounded by `M` with `M` attained, `Page.max` returns the first key in the
mapping's insertion order whose average differs from the maximum average by
less than `0.1**10` — first-seen order, not lexicographic order. -/
theorem C5_staticMax (pages : List (String × Page)) (M : ℚ)
    (hne : pages ≠ []) (hnd : (pages.map Prod.fst).Nodup)
    (hub : ∀ kv ∈ pages, kv.2.avg_time ≤ M) (hex : ∃ kv ∈ pages, kv.2.avg_time = M) :
    Page.max pages =
      (pages.find? (fun kv => decide (|kv.2.avg_time - M| < avgTol))).map Prod.fst := by
  obtain ⟨q, hq, hqM⟩ := maxByAvg_eq_max pages M hne hub hex
  unfold Page.max
  rw [hq]
  show (pages.map Prod.fst).find?
      (fun name => decide (|((pages.lookup name).getD {}).avg_time - q.avg_time| < avgTol)) = _
  rw [find?_keys_lookup pages (fun pg => decide (|pg.avg_time - q.avg_time| < avgTol)) {} hnd]
  simp only [hqM]

/-- Witness for C5 on `c5_pages` (averages 4 and 9, maximum 9). -/
theorem C5_staticMax_witness : Page.max c5_pages = some "b" := by
  rw [C5_staticMax c5_pages 9 (by simp [c5_pages]) (by decide)
    (by
      intro kv hkv
      simp only [c5_pages, List.mem_cons, List.not_mem_nil, or_false] at hkv
      rcases hkv with rfl | rfl
      · simp [Page.add_time]
        norm_num
      · simp [Page.add_time])
    ⟨("b", Page.add_time {} 9),
      by
        unfold c5_pages
        exact List.mem_cons_of_mem _ (List.mem_cons_self _ _),
      by simp [Page.add_time]⟩]
  have h1 : (decide (|(Page.add_time {} 4).avg_time - 9| < avgTol)) = false := by
    rw [decide_eq_false_iff_not]
    simp [Page.add_time, avgTol]
    norm_num
  have h2 : (decide (|(Page.add_time {} 9).avg_time - 9| < avgTol)) = true := by
    rw [decide_eq_true_eq]
    simp [Page.add_time, avgTol]
  simp [c5_pages, List.find?, h1, h2]

/-! ### Backtracking lemmas for the pattern matcher -/

theorem pyIsDot_of_not_space (c : Char) (h : pyIsSpace c = false) : pyIsDot c = true := by
  by_cases hc : c = '\n'
  · subst hc
    simp [pyIsSpace] at h
  · simp [pyIsDot, hc]

theorem patAfterDate_none (s : List Char) (g : PyGroups) (h : s.head? ≠ some ']') :
    Parser.patAfterDate s g = none := by
  unfold Parser.patAfterDate clit
  cases s with
  | nil => rfl
  | cons x t =>
    have hx : ¬ x = ']' := by simpa using h
    simp [hx]

/-- Greedy `p+` backtracking passes over a block of class characters none of
which is the barrier `b`, when the continuation fails off the barrier. -/
theorem cplusGrpAux_skip (p : Char → Bool) (set : String → PyGroups → PyGroups) (k : K)
    (b : Char) (hk : ∀ s g, s.head? ≠ some b → k s g = none) :
    ∀ (xs : List Char), (∀ c ∈ xs, p c = true ∧ c ≠ b) →
      ∀ (l acc : List Char) (g : PyGroups),
        cplusGrpAux p set k acc (xs ++ l) g = cplusGrpAux p set k (xs.reverse ++ acc) l g := by
  intro xs
  induction xs with
  | nil =>
    intro _ l acc g
    simp
  | cons c xs ih =>
    intro hxs l acc g
    have hc := hxs c (by simp)
    simp only [List.cons_append, cplusGrpAux, List.append_eq]
    rw [if_pos hc.1, ih (fun d hd => hxs d (by simp [hd])) l (c :: acc) g]
    have hacc : (c :: xs).reverse ++ acc = xs.reverse ++ (c :: acc) := by
      simp
    rw [hacc]
    cases hX : cplusGrpAux p set k (xs.reverse ++ (c :: acc)) l g with
    | none => simp [hk (c :: (xs ++ l)) _ (by simp [hc.2])]
    | some r => simp

/-- Greedy `p+` fails altogether on a barrier-free input when the
continuation fails off the barrier. -/
theorem cplusGrpAux_all_fail (p : Char → Bool) (set : String → PyGroups → PyGroups) (k : K)
    (b : Char) (hk : ∀ s g, s.head? ≠ some b → k s g = none) :
    ∀ (tail : List Char), (∀ c ∈ tail, p c = true ∧ c ≠ b) →
      ∀ (acc : List Char) (g : PyGroups), cplusGrpAux p set k acc tail g = none := by
  intro tail
  induction tail with
  | nil =>
    intro _ acc g
    exact hk [] _ (by simp)
  | cons c t ih =>
    intro htail acc g
    simp only [cplusGrpAux]
    rw [if_pos (htail c (by simp)).1,
      ih (fun d hd => htail d (by simp [hd])) (c :: acc) g]
    exact hk (c :: t) _ (by simp [(htail c (by simp)).2])

/-- Greedy `p+` commits to the full class run when the continuation succeeds
right after it. -/
theorem cplusGrpAux_commit (p : Char → Bool) (set : String → PyGroups → PyGroups) (k : K) :
    ∀ (xs : List Char), (∀ c ∈ xs, p c = true) →
      ∀ (y : Char), p y = false → ∀ (l acc : List Char) (g r : PyGroups),
        k (y :: l) (set (String.mk (acc.reverse ++ xs)) g) = some r →
        cplusGrpAux p set k acc (xs ++ y :: l) g = some r := by
  intro xs
  induction xs with
  | nil =>
    intro _ y hy l acc g r hk2
    simp only [List.nil_append, cplusGrpAux]
    rw [if_neg (by simp [hy])]
    simpa using hk2
  | cons c xs ih =>
    intro hxs y hy l acc g r hk2
    simp only [List.cons_append, cplusGrpAux, List.append_eq]
    rw [if_pos (hxs c (by simp)),
      ih (fun d hd => hxs d (by simp [hd])) y hy l (c :: acc) g r
        (by
          have hacc : (c :: acc).reverse ++ xs = acc.reverse ++ (c :: xs) := by simp
          rw [hacc]
          exact hk2)]

/-- The named-group `p+` matcher on `run ++ barrier :: tail`, with a
barrier-free run and tail: the group captures exactly the run. -/
theorem cplusGrp_barrier (p : Char → Bool) (set : String → PyGroups → PyGroups) (k : K)
    (b : Char) (hk : ∀ s g, s.head? ≠ some b → k s g = none)
    (xs tail : List Char) (hxsne : xs ≠ [])
    (hxs : ∀ c ∈ xs, p c = true ∧ c ≠ b)
    (htail : ∀ c ∈ tail, p c = true ∧ c ≠ b) (hb : p b = true) (g : PyGroups) :
    cplusGrp p set k (xs ++ b :: tail) g = k (b :: tail) (set (String.mk xs) g) := by
  cases xs with
  | nil => exact absurd rfl hxsne
  | cons c xs =>
    simp only [List.cons_append, cplusGrp]
    rw [if_pos (hxs c (by simp)).1,
      cplusGrpAux_skip p set k b hk xs (fun d hd => hxs d (by simp [hd])) (b :: tail) [c] g]
    simp only [cplusGrpAux]
    rw [if_pos hb,
      cplusGrpAux_all_fail p set k b hk tail htail (b :: (xs.reverse ++ [c])) g]
    have hacc : (xs.reverse ++ [c]).reverse = c :: xs := by simp
    rw [hacc]

/-- The named-group `p+` matcher commits to the full class run when the
continuation succeeds right after it. -/
theorem cplusGrp_commit (p : Char → Bool) (set : String → PyGroups → PyGroups) (k : K)
    (xs : List Char) (hne : xs ≠ []) (hxs : ∀ c ∈ xs, p c = true)
    (y : Char) (hy : p y = false) (l : List Char) (g r : PyGroups)
    (hk : k (y :: l) (set (String.mk xs) g) = some r) :
    cplusGrp p set k (xs ++ y :: l) g = some r := by
  cases xs with
  | nil => exact absurd rfl hne
  | cons c xs =>
    simp only [List.cons_append, cplusGrp]
    rw [if_pos (hxs c (by simp))]
    exact cplusGrpAux_commit p set k xs (fun d hd => hxs d (by simp [hd])) y hy l [c] g r
      (by simpa using hk)

/-- The concrete client/dashes prefix of `mkReqLine` is consumed
deterministically; the `IP` group captures `1.2.3.4`. -/
theorem patIP_step (rest : List Char) (g : PyGroups) :
    Parser.patIP (("1.2.3.4 - - ").data ++ rest) g =
      Parser.patDate rest { g with IP := some "1.2.3.4" } := rfl

/-- The concrete part of `mkReqLine` after the page is consumed
deterministically, capturing the user agent; with no trailing field, the
optional time group is skipped and the match ends. -/
theorem patAfterPage_step (g : PyGroups) :
    Parser.patAfterPage (lineSuf.data) g = some { g with User_Agent := some "ua1" } := rfl

/-- The page group of `mkReqLine p` captures exactly `p` (the full
non-whitespace run): the greedy `\S+` consumes all of `p`, the following
`.` consumes the separating space, and the rest of the pattern matches. -/
theorem patPage_step (p : String) (h1 : p.data ≠ [])
    (h2 : ∀ c ∈ p.data, pyIsSpace c = false) (g : PyGroups) :
    Parser.patPage (p.data ++ lineSuf.data) g =
      some { g with page := some p, User_Agent := some "ua1" } := by
  have hs : p.data ++ lineSuf.data =
      p.data ++ ' ' :: ("HTTP/1.1\" 304 211 \"http://r\" \"ua1\"").data := rfl
  rw [hs]
  exact cplusGrp_commit pyIsNotSpace _ Parser.patAfterPage p.data h1
    (fun c hc => by simp [pyIsNotSpace, h2 c hc]) ' ' (by decide) _ g _
    (patAfterPage_step { g with page := some p })

/-- From the closing bracket through the method `GET`: the first method
alternative matches and control reaches the page group. -/
theorem patAfterDate_step (rest : List Char) (g r : PyGroups)
    (hp : Parser.patPage rest g = some r) :
    Parser.patAfterDate (']' :: ' ' :: '"' :: 'G' :: 'E' :: 'T' :: ' ' :: rest) g = some r := by
  show Parser.patMethod ('G' :: 'E' :: 'T' :: ' ' :: rest) g = some r
  unfold Parser.patMethod
  rw [show clits "GET" (cone pyIsSpace Parser.patPage) ('G' :: 'E' :: 'T' :: ' ' :: rest) g =
      Parser.patPage rest g from rfl, hp]

/-- The date group `.+` scans to the end of the line and backtracks to the
unique `]`; on a bracket-free tail it captures exactly the timestamp. -/
theorem patDate_step (tail : List Char) (g r : PyGroups)
    (htail : ∀ c ∈ tail, pyIsDot c = true ∧ c ≠ ']')
    (hnext : Parser.patAfterDate (']' :: tail)
        { g with date := some "08/Jul/2012:06:31:57 +0600" } = some r) :
    Parser.patDate ('[' :: ("08/Jul/2012:06:31:57 +0600").data ++ ']' :: tail) g = some r := by
  show cplusGrp pyIsDot (fun v g => { g with date := some v }) Parser.patAfterDate
      (("08/Jul/2012:06:31:57 +0600").data ++ ']' :: tail) g = some r
  rw [cplusGrp_barrier pyIsDot _ Parser.patAfterDate ']'
      (fun s g h => patAfterDate_none s g h)
      ("08/Jul/2012:06:31:57 +0600").data tail (by decide) (by decide) htail (by decide) g]
  exact hnext

/-- **C2 (amended)**: for a line of the recognized shape whose request path
is a non-empty whitespace-free, bracket-free run followed by the usual
space-separated HTTP-version token, the `page` field equals the *full*
maximal non-whitespace run: the single character matched by the pattern's
`.` after the page group is the whitespace separator before the version
token, not the last character of the path (the greedy `\S+` has already
consumed the whole run). -/
theorem C2_full_run (p : String) (h1 : p ≠ "")
    (h2 : ∀ c ∈ p.data, pyIsSpace c = false ∧ c ≠ ']') :
    Parser.parse (mkReqLine p) =
      Except.ok (some { IP := "1.2.3.4", date := ⟨2012, 7, 8⟩, page := p,
                        User_Agent := "ua1", time := none }) := by
  have hdata : p.data ≠ [] := by
    intro hc
    apply h1
    cases p with
    | mk d =>
      cases hc
      rfl
  have hpat : Parser.PATTERN (mkReqLine p) =
      some { IP := some "1.2.3.4", date := some "08/Jul/2012:06:31:57 +0600",
             page := some p, User_Agent := some "ua1", time := none } := by
    unfold Parser.PATTERN
    have hline : (mkReqLine p).data =
        ("1.2.3.4 - - ").data ++
          ('[' :: ("08/Jul/2012:06:31:57 +0600").data ++
            ']' :: ' ' :: '"' :: 'G' :: 'E' :: 'T' :: ' ' :: (p.data ++ lineSuf.data)) := by
      show (linePre ++ p ++ lineSuf).data = _
      rw [String.data_append, String.data_append]
      show linePre.data ++ p.data ++ lineSuf.data = _
      rw [List.append_assoc]
      rfl
    rw [hline, patIP_step]
    apply patDate_step
    · intro c hc
      simp only [List.mem_cons, List.mem_append] at hc
      rcases hc with rfl | rfl | rfl | rfl | rfl | rfl | hc | hc
      · exact ⟨by decide, by decide⟩
      · exact ⟨by decide, by decide⟩
      · exact ⟨by decide, by decide⟩
      · exact ⟨by decide, by decide⟩
      · exact ⟨by decide, by decide⟩
      · exact ⟨by decide, by decide⟩
      · exact ⟨pyIsDot_of_not_space c (h2 c hc).1, (h2 c hc).2⟩
      · revert c
        decide
    · apply patAfterDate_step
      exact patPage_step p hdata (fun c hc => (h2 c hc).1) _
  unfold Parser.parse
  rw [hpat]
  rfl

/-- Witness for the amended C2 at a concrete multi-character path. -/
theorem C2_full_run_witness :
    Parser.parse (mkReqLine "/ok/path.html") =
      Except.ok (some { IP := "1.2.3.4", date := ⟨2012, 7, 8⟩, page := "/ok/path.html",
                        User_Agent := "ua1", time := none }) :=
  C2_full_run "/ok/path.html" (by decide) (by decide)

/-- Counterexample to C2 as stated: in `mkReqLine "/ab"` the maximal
non-whitespace run at the request-path position is `/ab`; the claim
predicts the capture `/a` (the run minus its last character), but the
parser captures the full `/ab`. -/
theorem C2_counterexample :
    (Parser.parse (mkReqLine "/ab")).map (Option.map LogRecord.page) =
      Except.ok (some "/ab") ∧
    String.mk ((("/ab" ++ lineSuf).data).takeWhile pyIsNotSpace) = "/ab" ∧
    String.mk (((("/ab" ++ lineSuf).data).takeWhile pyIsNotSpace).dropLast) = "/a" ∧
    ("/ab" : String) ≠ "/a" := by
  exact ⟨rfl, rfl, rfl, by decide⟩
